import Mathlib

/-!
Verification of the LandingGo caching / packing / compression core.

This file shallowly embeds the Go source of the repository:
  - the conditional-GET evaluator `isNotModified` (internal/server),
  - the gzip middleware response-writer state machine (internal/middleware),
  - the asset packer (internal/assets/packer),
  - the runtime content cache (internal/assets).

Go byte strings are modelled as Lean `String` (a wrapper around `List Char`);
all Go standard-library string operations used by the embedded code are
re-implemented below over `String.data` so that proofs can reason about them
directly.  Machine integers (sizes, times) are modelled as `Nat`; the Go zero
`time.Time` is modelled as `0`.  Standard-library collaborators whose exact
behaviour is irrelevant to the claims (`crypto/sha256.Sum256`,
`time.Parse` of the HTTP date format, `mime.TypeByExtension`,
`http.DetectContentType`) are abstracted as function parameters.
-/

namespace LandingGo

/-- goIsSpace models `unicode.IsSpace` (the whitespace set used by Go's
`strings.TrimSpace`): ASCII space characters, the two Latin-1 spaces, and
the Unicode White_Space code points. -/
def goIsSpace (c : Char) : Bool :=
  c = ' ' || c = '\t' || c = '\n' || c.toNat = 11 || c.toNat = 12 || c = '\r' ||
  c.toNat = 133 || c.toNat = 160 || c.toNat = 0x1680 ||
  (0x2000 ≤ c.toNat && c.toNat ≤ 0x200A) ||
  c.toNat = 0x2028 || c.toNat = 0x2029 || c.toNat = 0x202F ||
  c.toNat = 0x205F || c.toNat = 0x3000

/-- goTrimSpace models Go `strings.TrimSpace`. -/
def goTrimSpace (s : String) : String :=
  String.mk (((s.data.dropWhile goIsSpace).reverse.dropWhile goIsSpace).reverse)

/-- goToLower models Go `strings.ToLower` restricted to ASCII letters (all
strings the embedded code lowercases are ASCII). -/
def goToLower (s : String) : String :=
  String.mk (s.data.map fun c =>
    if 'A' ≤ c ∧ c ≤ 'Z' then Char.ofNat (c.toNat + 32) else c)

/-- goStartsWith models Go `strings.HasPrefix`. -/
def goStartsWith (s pre : String) : Bool :=
  pre.data.isPrefixOf s.data

/-- goEndsWith models Go `strings.HasSuffix`. -/
def goEndsWith (s suf : String) : Bool :=
  suf.data.isSuffixOf s.data

/-- goTrimLeading models Go `strings.TrimPrefix`: removes one leading copy of
`pre` when present. -/
def goTrimLeading (s pre : String) : String :=
  if goStartsWith s pre then String.mk (s.data.drop pre.data.length) else s

/-- charListInfix decides whether `sub` occurs contiguously inside `l`. -/
def charListInfix (sub : List Char) : List Char → Bool
  | [] => sub.isEmpty
  | c :: cs => sub.isPrefixOf (c :: cs) || charListInfix sub cs

/-- goContains models Go `strings.Contains`. -/
def goContains (s sub : String) : Bool :=
  charListInfix sub.data s.data

/-- goSplit models Go `strings.Split` for a one-character separator (the only
form the embedded code uses, with separator ","). -/
def goSplit (s : String) (sep : Char) : List String :=
  (s.data.splitOn sep).map String.mk

/-- goFields models Go `strings.Fields`: the whitespace-separated runs of
non-whitespace characters. -/
def goFields (s : String) : List String :=
  ((s.data.splitOnP goIsSpace).filter (fun l => ¬ l.isEmpty)).map String.mk

/-- goToSlash models `filepath.ToSlash`; on the Linux build platform the path
separator is already `/`, so it is the identity. -/
def goToSlash (s : String) : String := s

/-- strLe is byte-wise lexicographic string order, as used by Go
`sort.Strings` (code-point order coincides with UTF-8 byte order). -/
def charListLe : List Char → List Char → Bool
  | [], _ => true
  | _ :: _, [] => false
  | a :: as, b :: bs =>
    if a.toNat < b.toNat then true
    else if b.toNat < a.toNat then false
    else charListLe as bs

/-- strLe compares strings in the order used by `sort.Strings`. -/
def strLe (a b : String) : Bool := charListLe a.data b.data

/-- insertSorted inserts a string into a sorted list. -/
def insertSorted (a : String) : List String → List String
  | [] => [a]
  | b :: bs => if strLe a b then a :: b :: bs else b :: insertSorted a bs

/-- sortStrings models Go `sort.Strings` (insertion sort; stability is
irrelevant for the deduplicated inputs it receives). -/
def sortStrings (l : List String) : List String :=
  l.foldr insertSorted []

/-- dedupKeepFirst removes duplicates keeping the first occurrence, modelling
collection of the keys of a map populated in insertion order. -/
def dedupKeepFirst (l : List String) : List String :=
  l.foldl (fun acc x => if acc.contains x then acc else acc ++ [x]) []

/-! ## Conditional-GET evaluator

Embedding of `isNotModified` (internal/server/server.go):

```go
func isNotModified(r *http.Request, etag string, lastModified time.Time) bool {
    if etag != "" {
        if inm := r.Header.Get("If-None-Match"); inm != "" {
            for _, candidate := range strings.Split(inm, ",") {
                candidate = strings.TrimSpace(candidate)
                if candidate == etag || candidate == "*" { return true }
            }
        }
    }
    if !lastModified.IsZero() {
        if ims := r.Header.Get("If-Modified-Since"); ims != "" {
            if ts, err := time.Parse(http.TimeFormat, ims); err == nil {
                if !lastModified.After(ts) { return true }
            }
        }
    }
    return false
}
```

`time.Parse(http.TimeFormat, ·)` is abstracted as a parameter
`parse : String → Option Nat` returning the parsed timestamp on success. -/

/-- Request models the two conditional-request headers; an absent header is
the empty string, exactly as returned by Go's `Header.Get`. -/
structure Request where
  ifNoneMatch : String
  ifModifiedSince : String

/-- isNotModified is the conditional-GET evaluator, translated from
`internal/server.isNotModified`. -/
def isNotModified (parse : String → Option Nat) (r : Request)
    (etag : String) (lastModified : Nat) : Bool :=
  if etag ≠ "" ∧ r.ifNoneMatch ≠ "" ∧
      (goSplit r.ifNoneMatch ',').any
        (fun c => goTrimSpace c = etag || goTrimSpace c = "*") then
    true
  else if lastModified ≠ 0 ∧ r.ifModifiedSince ≠ "" then
    match parse r.ifModifiedSince with
    | some ts => decide (lastModified ≤ ts)
    | none => false
  else false

/-! ## Gzip middleware state machine

Embedding of the `gzipResponseWriter` of internal/middleware/middleware.go
together with the wrapper installed by `Gzip`:

```go
gzw := &gzipResponseWriter{ResponseWriter: w, pool: &pool, compress: true}
defer func() {
    if rec := recover(); rec != nil {
        gzw.DisableCompression()
        panic(rec)
    }
    gzw.Close()
}()
next.ServeHTTP(gzw, r)
```

The per-request lifecycle is sequential (each pooled compressor is owned by
exactly one in-flight response), so it is modelled as a state machine over
`GzState`.  `gets`/`puts` count `pool.Get()`/`pool.Put()` calls; `held` is
`g.writer != nil`; `out` records the chunks handed to the underlying
response writer, flagged `true` when routed through the gzip encoder.  The
handler body is a list of calls it performs on the wrapped writer, optionally
followed by a panic (`panics = true`), which the wrapper intercepts via the
deferred function above. -/

/-- GzAction is one call the inner handler performs on the wrapped response
writer.  `disable` models a direct `DisableCompression` call (as forwarded by
`responseRecorder.DisableCompression`). -/
inductive GzAction where
  | write (p : List Nat)
  | writeHeader (code : Nat)
  | flush
  | disable
deriving DecidableEq

/-- GzAction.isWrite recognises body-write calls. -/
def GzAction.isWrite : GzAction → Bool
  | .write _ => true
  | _ => false

/-- GzState is the state of a `gzipResponseWriter` plus the observable pool
and underlying-writer interactions of one request. -/
structure GzState where
  compress : Bool
  held : Bool
  wroteHeader : Bool
  contentEncoding : Option String
  contentLength : Option String
  varyHeader : List String
  gets : Nat
  puts : Nat
  out : List (Bool × List Nat)
  statuses : List Nat
deriving DecidableEq

/-- gzInit is the state of a freshly constructed `gzipResponseWriter`
(`compress: true`, no writer, nothing written). -/
def gzInit : GzState :=
  { compress := true, held := false, wroteHeader := false
    contentEncoding := none, contentLength := none, varyHeader := []
    gets := 0, puts := 0, out := [], statuses := [] }

/-- ensureWriter translates `gzipResponseWriter.ensureWriter`: lazily draw a
compressor from the pool and set the encoding headers. -/
def ensureWriter (s : GzState) : GzState :=
  if ¬ s.compress then s
  else if s.held then s
  else
    { s with gets := s.gets + 1, held := true
             contentLength := none
             contentEncoding := some "gzip"
             varyHeader := s.varyHeader ++ ["Accept-Encoding"] }

/-- disableCompression translates `gzipResponseWriter.DisableCompression`:
stop compressing, return a held compressor to the pool (its buffer reset to
`io.Discard`, so nothing reaches the client), and delete the
`Content-Encoding`/`Content-Length` headers. -/
def disableCompression (s : GzState) : GzState :=
  if ¬ s.compress then s
  else
    let s1 := { s with compress := false }
    let s2 := if s1.held then
        { s1 with puts := s1.puts + 1, held := false }
      else s1
    { s2 with contentEncoding := none, contentLength := none }

/-- closeWriter translates `gzipResponseWriter.Close`: flush the encoder and
return it to the pool when one was acquired. -/
def closeWriter (s : GzState) : GzState :=
  if ¬ s.held then s
  else { s with puts := s.puts + 1, held := false }

/-- writeHeaderStep translates `gzipResponseWriter.WriteHeader`. -/
def writeHeaderStep (code : Nat) (s : GzState) : GzState :=
  let s1 := if 400 ≤ code then disableCompression s else s
  { s1 with wroteHeader := true, statuses := s1.statuses ++ [code] }

/-- maybeEnsure is the `if g.writer == nil { g.ensureWriter() }` step of
`Write`. -/
def maybeEnsure (s : GzState) : GzState :=
  if ¬ s.held then ensureWriter s else s

/-- maybeWriteHeader is the `if !g.wroteHeader { g.WriteHeader(200) }` step
of `Write`. -/
def maybeWriteHeader (s : GzState) : GzState :=
  if ¬ s.wroteHeader then writeHeaderStep 200 s else s

/-- addOut records one chunk handed to the underlying writer (`true` when it
went through the gzip encoder). -/
def addOut (s : GzState) (viaGzip : Bool) (p : List Nat) : GzState :=
  { s with out := s.out ++ [(viaGzip, p)] }

/-- writeStep translates `gzipResponseWriter.Write`. -/
def writeStep (p : List Nat) (s : GzState) : GzState :=
  if ¬ s.compress then addOut (maybeWriteHeader s) false p
  else addOut (maybeWriteHeader (maybeEnsure s)) true p

/-- gzStep dispatches one handler call on the wrapped writer
(`Flush` touches no pool or body state that the claims observe). -/
def gzStep (s : GzState) : GzAction → GzState
  | .write p => writeStep p s
  | .writeHeader code => writeHeaderStep code s
  | .flush => s
  | .disable => disableCompression s

/-- runHandler executes the inner handler's calls on a fresh wrapper. -/
def runHandler (acts : List GzAction) : GzState :=
  acts.foldl gzStep gzInit

/-- runGzip is the whole middleware request: run the handler, then the
deferred function — `DisableCompression` and re-panic when the handler
panicked, `Close` otherwise. -/
def runGzip (acts : List GzAction) (panics : Bool) : GzState :=
  if panics then disableCompression (runHandler acts)
  else closeWriter (runHandler acts)

/-- gzInv is the pool-accounting invariant of the wrapper: the number of
compressors drawn exceeds the number returned by one exactly while a writer
is held, and a writer is held only while compression is enabled. -/
def gzInv (s : GzState) : Prop :=
  s.gets = s.puts + (if s.held then 1 else 0) ∧ (s.held = true → s.compress = true)

/-- NoBodyState describes a wrapper on which no body write has happened: the
pool is untouched and no encoding header is set. -/
def NoBodyState (s : GzState) : Prop :=
  s.gets = 0 ∧ s.puts = 0 ∧ s.held = false ∧ s.contentEncoding = none ∧
  s.out = []

/-- IdentityState describes a wrapper whose compression has been disabled
with the pool settled: every past and future body chunk reaches the
underlying writer identity-encoded. -/
def IdentityState (s : GzState) : Prop :=
  s.compress = false ∧ s.held = false ∧ s.contentEncoding = none ∧
  (s.out.all fun ch => !ch.1) = true

/-! ## Manifest entries and the strong validator

Embedding of `assets.ManifestEntry` (internal/assets/assets.go), the packer's
`addManifestEntry`/`mimeType` (internal/assets/packer/packer.go) and the
cache's `strongETag`.  `crypto/sha256.Sum256` is abstracted as a parameter
`sha : List Nat → List Nat` from byte sequences to digest bytes; `hexEncode`
concretely embeds `encoding/hex.EncodeToString`. -/

/-- ManifestEntry mirrors `assets.ManifestEntry`. -/
structure ManifestEntry where
  path : String
  sha256 : String
  size : Nat
  mime : String
  modTime : Nat
deriving DecidableEq

/-- Manifest mirrors `assets.Manifest`; the `files` map is an association
list keyed by slash-normalized path. -/
structure Manifest where
  generatedAt : Nat
  files : List (String × ManifestEntry)

/-- lookupAssoc is first-match association-list lookup (Go map indexing; keys
are unique in every map the code builds). -/
def lookupAssoc {α : Type} : List (String × α) → String → Option α
  | [], _ => none
  | (k, v) :: rest, key => if k = key then some v else lookupAssoc rest key

/-- hexDigit is the lowercase hex alphabet of `encoding/hex`. -/
def hexDigit (n : Nat) : Char :=
  if n < 10 then Char.ofNat ('0'.toNat + n)
  else Char.ofNat ('a'.toNat + (n - 10))

/-- hexEncode embeds `encoding/hex.EncodeToString` over digest bytes. -/
def hexEncode (bytes : List Nat) : String :=
  String.mk (bytes.foldr
    (fun b acc => hexDigit (b / 16 % 16) :: hexDigit (b % 16) :: acc) [])

/-- strongETag embeds `assets.strongETag`: the quoted lowercase hex SHA-256
of the body bytes, with the digest function abstracted. -/
def strongETag (sha : List Nat → List Nat) (body : List Nat) : String :=
  "\"" ++ hexEncode (sha body) ++ "\""

/-- goExtAux scans the reversed path for the final-element extension. -/
def goExtAux : List Char → List Char → String
  | [], _ => ""
  | c :: rest, acc =>
    if c = '/' then ""
    else if c = '.' then String.mk (c :: acc)
    else goExtAux rest (c :: acc)

/-- goExt embeds `filepath.Ext`: the suffix starting at the final dot of the
final path element, or the empty string. -/
def goExt (s : String) : String := goExtAux s.data.reverse []

/-- mimeType embeds the packer's extension table `packer.mimeType`. -/
def mimeType (path : String) : String :=
  let ext := goToLower (goExt path)
  if ext = ".html" ∨ ext = ".htm" then "text/html; charset=utf-8"
  else if ext = ".css" then "text/css; charset=utf-8"
  else if ext = ".js" then "application/javascript"
  else if ext = ".json" then "application/json"
  else if ext = ".png" then "image/png"
  else if ext = ".jpg" ∨ ext = ".jpeg" then "image/jpeg"
  else if ext = ".gif" then "image/gif"
  else if ext = ".svg" then "image/svg+xml"
  else if ext = ".ico" then "image/x-icon"
  else if ext = ".webp" then "image/webp"
  else if ext = ".woff" then "font/woff"
  else if ext = ".woff2" then "font/woff2"
  else if ext = ".ttf" then "font/ttf"
  else if ext = ".otf" then "font/otf"
  else if ext = ".xml" then "application/xml"
  else "application/octet-stream"

/-- mkManifestEntry is the entry literal built inside `addManifestEntry`. -/
def mkManifestEntry (sha : List Nat → List Nat) (relativePath : String)
    (data : List Nat) (modTime : Nat) : ManifestEntry :=
  let rel := goToSlash relativePath
  { path := rel, sha256 := hexEncode (sha data), size := data.length
    mime := mimeType rel, modTime := modTime }

/-- addManifestEntry embeds `packer.addManifestEntry`: assign
`manifest.Files[rel]` (map assignment modelled as prepend, with first-match
lookup). -/
def addManifestEntry (sha : List Nat → List Nat)
    (files : List (String × ManifestEntry)) (relativePath : String)
    (data : List Nat) (modTime : Nat) : List (String × ManifestEntry) :=
  (goToSlash relativePath, mkManifestEntry sha relativePath data modTime) :: files

/-- dropTime projects a manifest entry onto its time-independent fields
(path, hash, size, MIME). -/
def dropTime (e : ManifestEntry) : String × String × Nat × String :=
  (e.path, e.sha256, e.size, e.mime)

/-- dropTimes projects a manifest file map onto its time-independent
content. -/
def dropTimes (l : List (String × ManifestEntry)) :
    List (String × (String × String × Nat × String)) :=
  l.map (fun kv => (kv.1, dropTime kv.2))

/-! ## Asset path normalization (packer)

Embedding of `packer.normalizeAssetPath`:

```go
path = strings.TrimSpace(path)
if path == "" { return "", false }
lower := strings.ToLower(path)
if strings.HasPrefix(lower, "http://") || strings.HasPrefix(lower, "https://") ||
   strings.HasPrefix(lower, "//") { return "", false }
if strings.HasPrefix(lower, "data:") || strings.HasPrefix(lower, "mailto:") { return "", false }
if strings.HasPrefix(path, "#") { return "", false }
if idx := strings.IndexAny(path, "?#"); idx >= 0 { path = path[:idx] }
path = strings.TrimPrefix(path, "/")
path = strings.TrimPrefix(path, "./")
for strings.HasPrefix(path, "../") { path = strings.TrimPrefix(path, "../") }
path = filepath.ToSlash(path)
if !strings.HasPrefix(path, "static/") { return "", false }
return path, true
```
-/

/-- dropQueryFragment truncates at the first `?` or `#`
(`strings.IndexAny(path, "?#")` followed by slicing). -/
def dropQueryFragment (s : String) : String :=
  String.mk (s.data.takeWhile (fun c => c ≠ '?' ∧ c ≠ '#'))

/-- dropDotDots strips leading `../` segments (the `for` loop of
`normalizeAssetPath`). -/
def dropDotDots : List Char → List Char
  | '.' :: '.' :: '/' :: rest => dropDotDots rest
  | l => l

/-- normalizeAssetPath embeds `packer.normalizeAssetPath`; `none` plays the
role of `("", false)`. -/
def normalizeAssetPath (path : String) : Option String :=
  let path := goTrimSpace path
  if path = "" then none
  else
    let lower := goToLower path
    if goStartsWith lower "http://" || goStartsWith lower "https://" ||
        goStartsWith lower "//" then none
    else if goStartsWith lower "data:" || goStartsWith lower "mailto:" then none
    else if goStartsWith path "#" then none
    else
      let p1 := dropQueryFragment path
      let p2 := goTrimLeading p1 "/"
      let p3 := goTrimLeading p2 "./"
      let p4 := goToSlash (String.mk (dropDotDots p3.data))
      if goStartsWith p4 "static/" then some p4 else none

/-- stripDotSegs strips every leading `./` or `../` segment; this is the
reading of the specification sentence "after stripping ... leading './' and
'../' segments". -/
def stripDotSegs : List Char → List Char
  | '.' :: '/' :: rest => stripDotSegs rest
  | '.' :: '.' :: '/' :: rest => stripDotSegs rest
  | l => l

/-- specIsLocalAsset formalizes the specification's acceptance conditions for
a URL candidate, following the spec's words: not an absolute external URL
(http, https, protocol-relative), not a `data:`/`mailto:` URI, not a bare
fragment, and — after stripping any query/fragment suffix, a root slash and
the leading dot segments — the remainder lies under the static-assets root.
Candidates extracted from markup are whitespace-trimmed. -/
def specIsLocalAsset (path : String) : Bool :=
  let p := goTrimSpace path
  let lower := goToLower p
  ¬ (goStartsWith lower "http://" || goStartsWith lower "https://" ||
      goStartsWith lower "//") &&
  ¬ (goStartsWith lower "data:" || goStartsWith lower "mailto:") &&
  ¬ goStartsWith p "#" &&
  goStartsWith
    (String.mk (stripDotSegs (goTrimLeading (dropQueryFragment p) "/").data))
    "static/"

/-! ## Asset discovery (packer)

Embedding of `packer.collectAssets`, `packer.parseSrcSet` and
`packer.getAttr`.  The call to `golang.org/x/net/html.Parse` is modelled by a
small tokenizer producing the document-order list of elements with their
attributes; for plain markup (no raw-text or mis-nesting corrections) that
list coincides with a pre-order walk of the tree `html.Parse` builds, up to
the implicit `html`/`head`/`body` elements, which carry no attributes and
match no case of the collector's switch. -/

/-- parseSrcSet embeds `packer.parseSrcSet`: split the candidate list on
commas and keep the first whitespace-separated field of each part. -/
def parseSrcSet (srcset : String) : List String :=
  (goSplit srcset ',').foldr
    (fun part out =>
      let part := goTrimSpace part
      if part = "" then out
      else
        match goFields part with
        | [] => out
        | f :: _ => f :: out)
    []

/-- getAttr embeds `packer.getAttr`: first attribute whose key matches
case-insensitively (`strings.EqualFold`), with the value trimmed. -/
def getAttr (attrs : List (String × String)) (key : String) : String :=
  match attrs.find? (fun a => goToLower a.1 = goToLower key) with
  | some a => goTrimSpace a.2
  | none => ""

/-- readUntil splits a character list at the first character satisfying
`stop` (which is not consumed). -/
def readUntil (stop : Char → Bool) : List Char → List Char × List Char
  | [] => ([], [])
  | c :: cs =>
    if stop c then ([], c :: cs)
    else
      let (taken, rest) := readUntil stop cs
      (c :: taken, rest)

/-- parseAttrs reads a tag's attribute list up to the closing `>`. -/
def parseAttrs : Nat → List Char → List (String × String) × List Char
  | 0, cs => ([], cs)
  | fuel + 1, cs =>
    let cs := cs.dropWhile goIsSpace
    match cs with
    | [] => ([], [])
    | '>' :: rest => ([], rest)
    | '/' :: rest => parseAttrs fuel rest
    | _ =>
      let (key, cs1) := readUntil (fun c => c = '=' ∨ c = '>' ∨ goIsSpace c) cs
      match cs1 with
      | '=' :: '"' :: cs2 =>
        let (val, cs3) := readUntil (fun c => c = '"') cs2
        let cs4 := match cs3 with
          | '"' :: r => r
          | r => r
        let (attrs, rest) := parseAttrs fuel cs4
        ((String.mk key, String.mk val) :: attrs, rest)
      | _ =>
        let (attrs, rest) := parseAttrs fuel cs1
        ((String.mk key, "") :: attrs, rest)

/-- dropToTagStart drops characters up to and including the next `<`. -/
def dropToTagStart : List Char → Option (List Char)
  | [] => none
  | '<' :: rest => some rest
  | _ :: rest => dropToTagStart rest

/-- parseElems produces the document-order element list of plain markup:
tag names (lowercased, as `html.Parse` produces them) with their attribute
lists.  Closing tags yield an empty name and are skipped. -/
def parseElems : Nat → List Char → List (String × List (String × String))
  | 0, _ => []
  | fuel + 1, cs =>
    match dropToTagStart cs with
    | none => []
    | some rest =>
      let (name, r1) := readUntil (fun c => c = '>' ∨ c = '/' ∨ goIsSpace c) rest
      if name.isEmpty then parseElems fuel r1
      else
        let (attrs, r2) := parseAttrs r1.length r1
        (goToLower (String.mk name), attrs) :: parseElems fuel r2

/-- addNormalized inserts the normalization of one URL candidate into the
collected set (Go's `assets[normalized] = struct{}{}`). -/
def addNormalized (acc : List String) (ref : String) : List String :=
  match normalizeAssetPath ref with
  | some n => if acc.contains n then acc else acc ++ [n]
  | none => acc

/-- mediaTags is the tag list of the `src`-bearing case of the switch in
`collectAssets`. -/
def mediaTags : List String :=
  ["script", "img", "source", "video", "audio", "track", "iframe", "image", "use"]

/-- collectFromElem embeds one iteration of the element walk of
`packer.collectAssets` (the switch on the element's tag). -/
def collectFromElem (acc : List String)
    (tag : String) (attrs : List (String × String)) : List String :=
  if tag = "link" then
    let ref := getAttr attrs "href"
    if ref ≠ "" then addNormalized acc ref else acc
  else if mediaTags.contains tag then
    let acc :=
      let ref := getAttr attrs "src"
      if ref ≠ "" then addNormalized acc ref else acc
    let acc :=
      if tag = "video" then
        let poster := getAttr attrs "poster"
        if poster ≠ "" then addNormalized acc poster else acc
      else acc
    let srcset := getAttr attrs "srcset"
    if srcset ≠ "" then (parseSrcSet srcset).foldl addNormalized acc else acc
  else if tag = "meta" then
    let name := goToLower (getAttr attrs "property")
    if name = "og:image" ∨ name = "twitter:image" then
      let content := getAttr attrs "content"
      if content ≠ "" then addNormalized acc content else acc
    else acc
  else acc

/-- collectAssets embeds `packer.collectAssets`: walk every element of the
parsed markup, collect the accepted local asset paths, deduplicate and sort
them. -/
def collectAssets (htmlText : String) : List String :=
  let elems := parseElems (htmlText.data.length + 1) htmlText.data
  sortStrings (elems.foldl (fun acc e => collectFromElem acc e.1 e.2) [])

/-! ## Route validation and the packer run

Embedding of the route/page portion of `config.Validate`
(internal/config/config.go) and of `packer.options.run`,
`packer.uniquePages`.  Filesystem access is modelled by lookup functions:
`pageFS name` is the content of `webDir/pages/name` (the `fsExists` callback
of `Validate` and the page loop's `os.Stat`/`os.ReadFile`), `assetFS p` the
content of `webDir/p`.  The site/contact checks of `Validate`, and the
copy/manifest-write I/O of `run`, are orthogonal to the claims about missing
pages and assets and are not modelled; `collect` abstracts `collectAssets`
and `sha`/`modTimeOf` the per-file digest and stat time. -/

/-- Route mirrors `config.Route`. -/
structure Route where
  path : String
  page : String
  title : String
deriving DecidableEq

/-- goTrimTrailingSlashes models `strings.TrimRight(p, "/")`. -/
def goTrimTrailingSlashes (s : String) : String :=
  String.mk (s.data.reverse.dropWhile (fun c => c = '/')).reverse

/-- cleanPath embeds `config.cleanPath`. -/
def cleanPath (p : String) : String :=
  if p = "" then p
  else
    let p := if goStartsWith p "/" then p else "/" ++ p
    if 1 < p.data.length then goTrimTrailingSlashes p else p

/-- toUpperRune embeds `config.toUpperRune`. -/
def toUpperRune (c : Char) : Char :=
  if 'a' ≤ c ∧ c ≤ 'z' then Char.ofNat (c.toNat - 32) else c

/-- titleCase embeds `config.titleCase`. -/
def titleCase (s : String) : String :=
  let s := goToLower (goTrimSpace s)
  match s.data with
  | [] => s
  | c :: rest => String.mk (toUpperRune c :: rest)

/-- goBase embeds `filepath.Base`. -/
def goBase (s : String) : String :=
  if s = "" then "."
  else
    let d := s.data.reverse.dropWhile (fun c => c = '/')
    if d.isEmpty then "/" else String.mk (d.takeWhile (fun c => c ≠ '/')).reverse

/-- lastDotIndex returns the index of the final `.`
(`strings.LastIndexByte(base, '.')`). -/
def lastDotIndex (l : List Char) : Option Nat :=
  match (l.reverse.findIdx? (fun c => c = '.')) with
  | some i => some (l.length - 1 - i)
  | none => none

/-- defaultTitleFromPage embeds `config.defaultTitleFromPage`. -/
def defaultTitleFromPage (page : String) : String :=
  let base := goBase page
  let base :=
    match lastDotIndex base.data with
    | some idx => if 0 < idx then String.mk (base.data.take idx) else base
    | none => base
  let base := String.mk (base.data.map (fun c => if c = '-' then ' ' else c))
  let base := String.mk (base.data.map (fun c => if c = '_' then ' ' else c))
  titleCase base

/-- validateRoutesAux is the route loop of `config.Validate`, with the set of
already-seen cleaned paths as accumulator; it returns the normalized routes
(`Validate` normalizes them in place). -/
def validateRoutesAux (fsExists : String → Bool) :
    List Route → List String → Except String (List Route)
  | [], _ => .ok []
  | rt :: rest, seen =>
    if rt.path = "" then .error "route: path is required"
    else if seen.contains (cleanPath rt.path) then .error "duplicate route path"
    else if rt.page = "" then .error "route: page is required"
    else if goContains (goToSlash rt.page) ".." then
      .error "route: page must not contain dotdot"
    else if ¬ fsExists (goToSlash rt.page) then .error "route: page not found"
    else
      match validateRoutesAux fsExists rest (cleanPath rt.path :: seen) with
      | .error e => .error e
      | .ok rs =>
        .ok ({ path := cleanPath rt.path, page := goToSlash rt.page
               title := if rt.title = "" then defaultTitleFromPage (goToSlash rt.page)
                 else rt.title } :: rs)

/-- validateRoutes embeds the route/page portion of `config.Validate`. -/
def validateRoutes (fsExists : String → Bool) (routes : List Route) :
    Except String (List Route) :=
  if routes.isEmpty then .error "config.routes must contain at least one entry"
  else validateRoutesAux fsExists routes []

/-- uniquePages embeds `packer.uniquePages`: the routes' pages plus the two
reserved error pages, deduplicated, with empty names dropped, sorted. -/
def uniquePages (routes : List Route) : List String :=
  sortStrings
    ((dedupKeepFirst (routes.map (fun r => r.page) ++ ["404.html", "500.html"])).filter
      (fun p => p ≠ ""))

/-- PackInput bundles the packer run's collaborators: the two filesystem
views, the markup asset collector, the digest function and the stat
modification time. -/
structure PackInput where
  pageFS : String → Option (List Nat)
  assetFS : String → Option (List Nat)
  collect : List Nat → List String
  sha : List Nat → List Nat
  modTimeOf : String → Nat

/-- discoveredAssets is the asset set accumulated by the page loop of
`options.run` (pages missing on disk contribute nothing — the loop
`continue`s on `os.ErrNotExist`). -/
def discoveredAssets (inp : PackInput) (pages : List String) : List String :=
  pages.foldl
    (fun acc page =>
      match inp.pageFS page with
      | none => acc
      | some data =>
        (inp.collect data).foldl
          (fun a x => if a.contains x then a else a ++ [x]) acc)
    []

/-- packPages is the manifest contribution of the page loop of
`options.run`. -/
def packPages (inp : PackInput) (pages : List String) :
    List (String × ManifestEntry) :=
  pages.foldl
    (fun acc page =>
      match inp.pageFS page with
      | none => acc
      | some data =>
        addManifestEntry inp.sha acc ("pages/" ++ page) data
          (inp.modTimeOf ("pages/" ++ page)))
    []

/-- packAssets is the asset loop of `options.run`: a missing asset is fatal
(`stat asset %s: %w`). -/
def packAssets (inp : PackInput) :
    List String → List (String × ManifestEntry) →
    Except String (List (String × ManifestEntry))
  | [], acc => .ok acc
  | a :: rest, acc =>
    match inp.assetFS a with
    | none => .error ("stat asset " ++ a)
    | some data =>
      packAssets inp rest (addManifestEntry inp.sha acc a data (inp.modTimeOf a))

/-- runPacker embeds `packer.options.run`: validate the configuration, copy
and hash the referenced pages (the two reserved error pages being optional),
then copy and hash every discovered static asset. -/
def runPacker (inp : PackInput) (routes : List Route) :
    Except String (List (String × ManifestEntry)) :=
  match validateRoutes (fun name => (inp.pageFS name).isSome) routes with
  | .error e => .error e
  | .ok vroutes =>
    let pages := uniquePages vroutes
    let entries := packPages inp pages
    let assets := sortStrings (discoveredAssets inp pages)
    packAssets inp assets entries

/-- exceptIsOk tests for a successful result. -/
def exceptIsOk {ε α : Type} : Except ε α → Bool
  | .ok _ => true
  | .error _ => false

/-- manifestAgrees states that two packer runs agree: same failure, or
manifests identical in every field except the modification times. -/
def manifestAgrees :
    Except String (List (String × ManifestEntry)) →
    Except String (List (String × ManifestEntry)) → Prop
  | .error e1, .error e2 => e1 = e2
  | .ok l1, .ok l2 => dropTimes l1 = dropTimes l2
  | _, _ => False

/-! ## Runtime content cache

Embedding of `assets.Cache.Get`, `assets.Cache.lookupMeta` and
`assets.fallbackMIME` (internal/assets/assets.go).  The `sync.Map` is modelled
as an explicit association-list state threaded through `Get`; the standard
library collaborators `mime.TypeByExtension` and `http.DetectContentType` are
abstracted into `StdLib` together with the SHA-256 digest.  `Get` fills the
record's fields one by one before storing it, which the embedding mirrors by
computing each field of the record with a dedicated resolver and storing the
completed record. -/

/-- StdLib bundles the abstracted Go standard-library collaborators. -/
structure StdLib where
  sha : List Nat → List Nat
  mimeByExt : String → String
  detectContentType : List Nat → String

/-- CachedAsset mirrors `assets.CachedAsset`. -/
structure CachedAsset where
  path : String
  body : List Nat
  etag : String
  lastModified : Nat
  mime : String
  size : Nat
deriving DecidableEq

/-- AssetMeta mirrors `assets.assetMeta`. -/
structure AssetMeta where
  etag : String
  lastModified : Nat
  mime : String

/-- CacheModel mirrors the immutable fields of `assets.Cache`; `modTimeFn`
is the nilable best-effort stat callback (`none` result = error). -/
structure CacheModel where
  fs : String → Option (List Nat)
  manifest : Option Manifest
  defaultTime : Nat
  modTimeFn : Option (String → Option Nat)

/-- fallbackMIME embeds `assets.fallbackMIME`. -/
def fallbackMIME (ext : String) : String :=
  if ext = ".html" ∨ ext = ".htm" then "text/html; charset=utf-8"
  else if ext = ".css" then "text/css; charset=utf-8"
  else if ext = ".js" then "application/javascript"
  else if ext = ".json" then "application/json"
  else if ext = ".svg" then "image/svg+xml"
  else if ext = ".xml" then "application/xml"
  else if ext = ".txt" then "text/plain; charset=utf-8"
  else "application/octet-stream"

/-- manifestFiles is the manifest file map of a cache (empty when no
manifest was loaded). -/
def manifestFiles (c : CacheModel) : List (String × ManifestEntry) :=
  match c.manifest with
  | none => []
  | some m => m.files

/-- manifestGeneratedAt is the manifest generation time (zero when no
manifest was loaded; in that case `lookupMeta` never consults it). -/
def manifestGeneratedAt (c : CacheModel) : Nat :=
  match c.manifest with
  | none => 0
  | some m => m.generatedAt

/-- lookupMeta embeds `assets.Cache.lookupMeta`: the zero meta when no
manifest is loaded or the path has no entry (`manifestFiles` is empty for a
nil manifest), else the entry's validator quoted when necessary, its
modification time falling back to the manifest generation time, and its
declared MIME. -/
def lookupMeta (c : CacheModel) (path : String) : AssetMeta :=
  match lookupAssoc (manifestFiles c) path with
  | none => { etag := "", lastModified := 0, mime := "" }
  | some entry =>
    { etag :=
        if entry.sha256 ≠ "" ∧ ¬ goStartsWith entry.sha256 "\"" then
          "\"" ++ entry.sha256 ++ "\""
        else entry.sha256
      lastModified :=
        if entry.modTime = 0 then manifestGeneratedAt c else entry.modTime
      mime := entry.mime }

/-- resolveETag is the ETag fallback of `Get`: the manifest validator when
present, else the quoted content hash. -/
def resolveETag (std : StdLib) (metaETag : String) (body : List Nat) : String :=
  if metaETag = "" then strongETag std.sha body else metaETag

/-- resolveLMStat is the stat fallback of the Last-Modified chain: the
manifest time when non-zero, else the best-effort stat result (zero when the
callback is absent or errors). -/
def resolveLMStat (c : CacheModel) (path : String) (metaLM : Nat) : Nat :=
  if metaLM = 0 then
    match c.modTimeFn with
    | some f =>
      match f path with
      | some mt => mt
      | none => 0
    | none => 0
  else metaLM

/-- resolveLastModified is the Last-Modified fallback chain of `Get`:
manifest time, else best-effort stat, else the cache's default time. -/
def resolveLastModified (c : CacheModel) (path : String) (metaLM : Nat) : Nat :=
  if resolveLMStat c path metaLM = 0 then c.defaultTime
  else resolveLMStat c path metaLM

/-- resolveMIMEBase is the first MIME fallback chain of `Get`: manifest
value, extension lookup, built-in table, content sniffing. -/
def resolveMIMEBase (std : StdLib) (path : String) (metaMIME : String)
    (body : List Nat) : String :=
  if metaMIME = "" then
    if std.mimeByExt (goToLower (goExt path)) ≠ "" then
      std.mimeByExt (goToLower (goExt path))
    else if fallbackMIME (goToLower (goExt path)) ≠ "" then
      fallbackMIME (goToLower (goExt path))
    else std.detectContentType body
  else metaMIME

/-- resolveMIME is the full MIME resolution of `Get`: the fallback chain,
with a generic binary result re-sniffed from the leading bytes. -/
def resolveMIME (std : StdLib) (path : String) (metaMIME : String)
    (body : List Nat) : String :=
  if resolveMIMEBase std path metaMIME body = "" ∨
      resolveMIMEBase std path metaMIME body = "application/octet-stream" then
    if std.detectContentType body ≠ "" ∧
        std.detectContentType body ≠ "application/octet-stream" then
      std.detectContentType body
    else resolveMIMEBase std path metaMIME body
  else resolveMIMEBase std path metaMIME body

/-- computeAsset is the record construction of `Cache.Get` on a cache miss:
read the bytes and resolve every field of the record. -/
def computeAsset (std : StdLib) (c : CacheModel) (path : String) :
    Option CachedAsset :=
  match c.fs path with
  | none => none
  | some body =>
    some
      { path := path, body := body
        etag := resolveETag std (lookupMeta c path).etag body
        lastModified := resolveLastModified c path (lookupMeta c path).lastModified
        mime := resolveMIME std path (lookupMeta c path).mime body
        size := body.length }

/-- CacheState is the contents of the `sync.Map` of cached assets. -/
abbrev CacheState : Type := List (String × CachedAsset)

/-- cacheGet embeds `assets.Cache.Get`: reject the empty path, return a
cached record, otherwise build the record and publish it fully formed. -/
def cacheGet (std : StdLib) (c : CacheModel) (st : CacheState) (path : String) :
    Except String (CachedAsset × CacheState) :=
  if path = "" then .error "path is empty"
  else
    match lookupAssoc st path with
    | some a => .ok (a, st)
    | none =>
      match computeAsset std c path with
      | none => .error "read error"
      | some a => .ok (a, (path, a) :: st)

/-- runGets folds a sequence of `Get` calls over the cache state (an erroring
call leaves the state unchanged, as in the code). -/
def runGets (std : StdLib) (c : CacheModel) (paths : List String) : CacheState :=
  paths.foldl
    (fun st p =>
      match cacheGet std c st p with
      | .ok (_, st1) => st1
      | .error _ => st)
    ([] : CacheState)

/-- ReachableCache holds for every map state arising from a sequence of
`Get` calls against an initially empty cache. -/
def ReachableCache (std : StdLib) (c : CacheModel) (st : CacheState) : Prop :=
  ∃ paths : List String, st = runGets std c paths

/-! ## Concrete instances used by witnesses and counterexamples -/

/-- parseW is a concrete HTTP-date parser for witnesses: it accepts exactly
one date string. -/
def parseW (s : String) : Option Nat := if s = "X" then some 7 else none

/-- reqW is a concrete conditional request whose `If-None-Match` matches the
cached ETag. -/
def reqW : Request := { ifNoneMatch := "\"abc\"", ifModifiedSince := "" }

/-- inpW7 is a packer input with one page referencing one existing asset. -/
def inpW7 : PackInput :=
  { pageFS := fun n => if n = "home.html" then some [1] else none
    assetFS := fun a => if a = "static/a.css" then some [2] else none
    collect := fun _ => ["static/a.css"]
    sha := fun _ => [0]
    modTimeOf := fun _ => 7 }

/-- inpW7noPage is inpW7 with every page missing on disk. -/
def inpW7noPage : PackInput := { inpW7 with pageFS := fun _ => none }

/-- inpW7noAsset is inpW7 with every static asset missing on disk. -/
def inpW7noAsset : PackInput := { inpW7 with assetFS := fun _ => none }

/-- routesW7 is a one-route configuration. -/
def routesW7 : List Route := [{ path := "/", page := "home.html", title := "Home" }]

/-- stdW9 is a concrete standard-library bundle for cache witnesses. -/
def stdW9 : StdLib :=
  { sha := fun _ => [0]
    mimeByExt := fun _ => ""
    detectContentType := fun _ => "text/plain" }

/-- cacheW9 is a manifest-less cache over a one-file filesystem. -/
def cacheW9 : CacheModel :=
  { fs := fun p => if p = "a" then some [1, 2] else none
    manifest := none
    defaultTime := 5
    modTimeFn := none }

/-- recW9 is the record `cacheGet stdW9 cacheW9` builds for path `a`. -/
def recW9 : CachedAsset :=
  { path := "a", body := [1, 2], etag := "\"00\"", lastModified := 5
    mime := "text/plain", size := 2 }

/-- recX is the record the cache builds for path `a` over `cacheX` below. -/
def recX : CachedAsset :=
  { path := "a", body := [], etag := "\"x", lastModified := 3
    mime := "t/p", size := 0 }

/-- entryX is a malformed manifest entry whose `sha256` string starts with a
double quote but does not end with one. -/
def entryX : ManifestEntry :=
  { path := "a", sha256 := "\"x", size := 0, mime := "t/p", modTime := 0 }

/-- cacheX is a cache over a manifest containing the malformed entry. -/
def cacheX : CacheModel :=
  { fs := fun p => if p = "a" then some [] else none
    manifest := some { generatedAt := 3, files := [("a", entryX)] }
    defaultTime := 5
    modTimeFn := none }

/-! # Theorems -/

/-- goSplit_empty computes the comma split of the empty header. -/
theorem goSplit_empty : goSplit "" ',' = [""] := rfl

/-- Claim C1: for every request and every resolved record with a non-empty
quoted ETag and a (non-zero) Last-Modified time, the conditional-GET
evaluator answers NotModified (`true`) exactly when the `If-None-Match`
header, split on commas with tokens trimmed, contains `*` or the resolved
ETag — regardless of any timestamp header — or, failing that, when
`If-Modified-Since` parses under the HTTP date format and the resolved
Last-Modified is not strictly after the parsed time; in every other case it
proceeds (`false`).  The HTTP date parser is abstract, constrained only to
reject the empty string. -/
theorem C1_conditional_get_iff (parse : String → Option Nat) (r : Request)
    (etag : String) (lm : Nat)
    (hetag : etag ≠ "") (hquote : goStartsWith etag "\"" = true)
    (hlm : lm ≠ 0) (hparse : parse "" = none) :
    isNotModified parse r etag lm = true ↔
      ((∃ tok ∈ goSplit r.ifNoneMatch ',',
          goTrimSpace tok = "*" ∨ goTrimSpace tok = etag) ∨
        (∃ ts, parse r.ifModifiedSince = some ts ∧ lm ≤ ts)) := by
  unfold isNotModified
  have hinm : ((goSplit r.ifNoneMatch ',').any
      (fun c => goTrimSpace c = etag || goTrimSpace c = "*")) = true ↔
      (∃ tok ∈ goSplit r.ifNoneMatch ',',
        goTrimSpace tok = "*" ∨ goTrimSpace tok = etag) := by
    rw [List.any_eq_true]
    constructor
    · rintro ⟨tok, hmem, htok⟩
      rcases Bool.or_eq_true_iff.mp htok with h | h
      · exact ⟨tok, hmem, Or.inr (by exact decide_eq_true_eq.mp h)⟩
      · exact ⟨tok, hmem, Or.inl (by exact decide_eq_true_eq.mp h)⟩
    · rintro ⟨tok, hmem, htok⟩
      refine ⟨tok, hmem, Bool.or_eq_true_iff.mpr ?_⟩
      rcases htok with h | h
      · exact Or.inr (decide_eq_true_eq.mpr h)
      · exact Or.inl (decide_eq_true_eq.mpr h)
  by_cases hA : etag ≠ "" ∧ r.ifNoneMatch ≠ "" ∧
      ((goSplit r.ifNoneMatch ',').any
        (fun c => goTrimSpace c = etag || goTrimSpace c = "*")) = true
  · rw [if_pos hA]
    exact iff_of_true rfl (Or.inl (hinm.mp hA.2.2))
  · simp only [if_neg hA]
    have hnoetag : ¬ (∃ tok ∈ goSplit r.ifNoneMatch ',',
        goTrimSpace tok = "*" ∨ goTrimSpace tok = etag) := by
      intro hex
      apply hA
      refine ⟨hetag, ?_, hinm.mpr hex⟩
      intro hempty
      rcases hex with ⟨tok, hmem, htok⟩
      rw [hempty, goSplit_empty] at hmem
      have htok0 : tok = "" := List.mem_singleton.mp hmem
      subst htok0
      rcases htok with h | h
      · exact absurd h (by decide)
      · exact hetag (by simpa [goTrimSpace] using h.symm)
    by_cases hims : r.ifModifiedSince = ""
    · rw [hims]
      simp only [hparse]
      constructor
      · intro h
        exact absurd h (by simp [hlm])
      · rintro (hex | ⟨ts, hts, _⟩)
        · exact absurd hex hnoetag
        · simp [hparse] at hts
    · have hcond : lm ≠ 0 ∧ r.ifModifiedSince ≠ "" := ⟨hlm, hims⟩
      simp only [if_pos hcond]
      constructor
      · intro h
        cases hp : parse r.ifModifiedSince with
        | none => rw [hp] at h; exact absurd h (by simp)
        | some ts =>
          rw [hp] at h
          exact Or.inr ⟨ts, rfl, of_decide_eq_true h⟩
      · rintro (hex | ⟨ts, hts, hle⟩)
        · exact absurd hex hnoetag
        · rw [hts]
          exact decide_eq_true hle

/-- C1 witness: a request whose `If-None-Match` contains exactly the cached
quoted validator is answered NotModified. -/
theorem C1_conditional_get_iff_witness :
    isNotModified parseW reqW "\"abc\"" 5 = true :=
  (C1_conditional_get_iff parseW reqW "\"abc\"" 5 (by decide) (by decide)
      (by decide) (by decide)).mpr
    (Or.inl ⟨"\"abc\"", by decide, Or.inr (by decide)⟩)

/-- gzInv holds of a freshly constructed wrapper. -/
theorem gzInv_init : gzInv gzInit := by
  constructor <;> simp [gzInit, gzInv]

/-- ensureWriter preserves the pool invariant. -/
theorem gzInv_ensureWriter (s : GzState) (h : gzInv s) : gzInv (ensureWriter s) := by
  obtain ⟨h1, h2⟩ := h
  unfold ensureWriter
  by_cases hc : s.compress = true
  · by_cases hh : s.held = true
    · simp [hc, hh, gzInv, h1, h2]
    · simp only [hc, hh, gzInv]
      simp only [Bool.not_eq_true] at hh
      simp [hh] at h1
      simp [h1, hc]
  · simp only [Bool.not_eq_true] at hc
    have hh : s.held = false := by
      cases hhold : s.held
      · rfl
      · exact absurd (h2 hhold) (by simp [hc])
    simp [hc, hh, gzInv]
    rw [hh] at h1
    simpa using h1

/-- disableCompression preserves the pool invariant. -/
theorem gzInv_disable (s : GzState) (h : gzInv s) : gzInv (disableCompression s) := by
  obtain ⟨h1, h2⟩ := h
  unfold disableCompression
  by_cases hc : s.compress = true
  · by_cases hh : s.held = true
    · simp [hc, hh, gzInv]
      simp [hh] at h1
      omega
    · simp only [Bool.not_eq_true] at hh
      simp [hc, hh, gzInv]
      simp [hh] at h1
      omega
  · simp only [Bool.not_eq_true] at hc
    have hh : s.held = false := by
      cases hhold : s.held
      · rfl
      · exact absurd (h2 hhold) (by simp [hc])
    simp [hc, hh, gzInv]
    rw [hh] at h1
    simpa using h1

/-- closeWriter settles the pool: afterwards no writer is held and every
drawn compressor has been returned. -/
theorem gzInv_close (s : GzState) (h : gzInv s) :
    (closeWriter s).held = false ∧ (closeWriter s).puts = (closeWriter s).gets := by
  obtain ⟨h1, _⟩ := h
  unfold closeWriter
  by_cases hh : s.held = true
  · simp [hh] at h1
    simp [hh, h1]
  · simp only [Bool.not_eq_true] at hh
    simp [hh] at h1
    simp [hh, h1]

/-- disableCompression settles the pool likewise (the panic path). -/
theorem gzInv_disable_final (s : GzState) (h : gzInv s) :
    (disableCompression s).held = false ∧
    (disableCompression s).puts = (disableCompression s).gets := by
  obtain ⟨h1, h2⟩ := h
  unfold disableCompression
  by_cases hc : s.compress = true
  · by_cases hh : s.held = true
    · simp [hh] at h1
      simp [hc, hh, h1]
    · simp only [Bool.not_eq_true] at hh
      simp [hh] at h1
      simp [hc, hh, h1]
  · simp only [Bool.not_eq_true] at hc
    have hh : s.held = false := by
      cases hhold : s.held
      · rfl
      · exact absurd (h2 hhold) (by simp [hc])
    rw [hh] at h1
    simp at h1
    simp [hc, hh, h1]

/-- writeHeaderStep preserves the pool invariant. -/
theorem gzInv_writeHeader (code : Nat) (s : GzState) (h : gzInv s) :
    gzInv (writeHeaderStep code s) := by
  unfold writeHeaderStep
  by_cases hcode : 400 ≤ code
  · have h3 := gzInv_disable s h
    simp only [if_pos hcode]
    exact ⟨h3.1, h3.2⟩
  · simp only [if_neg hcode]
    exact ⟨h.1, h.2⟩

/-- maybeEnsure preserves the pool invariant. -/
theorem gzInv_maybeEnsure (s : GzState) (h : gzInv s) : gzInv (maybeEnsure s) := by
  unfold maybeEnsure
  split
  · exact gzInv_ensureWriter s h
  · exact h

/-- maybeWriteHeader preserves the pool invariant. -/
theorem gzInv_maybeWriteHeader (s : GzState) (h : gzInv s) :
    gzInv (maybeWriteHeader s) := by
  unfold maybeWriteHeader
  split
  · exact gzInv_writeHeader 200 s h
  · exact h

/-- addOut preserves the pool invariant. -/
theorem gzInv_addOut (s : GzState) (b : Bool) (p : List Nat) (h : gzInv s) :
    gzInv (addOut s b p) :=
  ⟨h.1, h.2⟩

/-- writeStep preserves the pool invariant. -/
theorem gzInv_write (p : List Nat) (s : GzState) (h : gzInv s) :
    gzInv (writeStep p s) := by
  unfold writeStep
  split
  · exact gzInv_addOut _ _ _ (gzInv_maybeWriteHeader s h)
  · exact gzInv_addOut _ _ _ (gzInv_maybeWriteHeader _ (gzInv_maybeEnsure s h))

/-- gzStep preserves the pool invariant. -/
theorem gzInv_step (s : GzState) (a : GzAction) (h : gzInv s) :
    gzInv (gzStep s a) := by
  cases a with
  | write p => exact gzInv_write p s h
  | writeHeader code => exact gzInv_writeHeader code s h
  | flush => exact h
  | disable => exact gzInv_disable s h

/-- gzInv holds after any sequence of handler calls. -/
theorem gzInv_foldl (acts : List GzAction) (s : GzState) (h : gzInv s) :
    gzInv (acts.foldl gzStep s) := by
  induction acts generalizing s with
  | nil => exact h
  | cons a rest ih => exact ih (gzStep s a) (gzInv_step s a h)

/-- gzInv holds of every mid-request state. -/
theorem gzInv_runHandler (acts : List GzAction) : gzInv (runHandler acts) :=
  gzInv_foldl acts gzInit gzInv_init

/-- Claim C2: per wrapped request, exactly one pool return happens per
acquired compressor.  After the middleware finishes — whether the handler
returned normally (Close) or panicked (DisableCompression followed by
re-panic) — no compressor is still held and the number of pool returns
equals the number of pool draws; moreover at every intermediate point the
draws exceed the returns by one exactly while a compressor is held, so a
compressor is never returned twice and never leaked. -/
theorem C2_pool_exactly_once (acts : List GzAction) (panics : Bool) :
    (runGzip acts panics).held = false ∧
    (runGzip acts panics).puts = (runGzip acts panics).gets ∧
    (runHandler acts).gets =
      (runHandler acts).puts + (if (runHandler acts).held then 1 else 0) := by
  have hinv := gzInv_runHandler acts
  unfold runGzip
  cases panics with
  | false =>
    simp only [Bool.false_eq_true, if_false]
    exact ⟨(gzInv_close _ hinv).1, (gzInv_close _ hinv).2, hinv.1⟩
  | true =>
    simp only [if_true]
    exact ⟨(gzInv_disable_final _ hinv).1, (gzInv_disable_final _ hinv).2, hinv.1⟩

/-- NoBodyState holds of a freshly constructed wrapper. -/
theorem noBody_init : NoBodyState gzInit := by
  refine ⟨rfl, rfl, rfl, rfl, rfl⟩

/-- Headers, flushes and disable calls preserve NoBodyState: only a body
write touches the pool or sets the encoding header. -/
theorem noBody_step (s : GzState) (a : GzAction) (ha : a.isWrite = false)
    (h : NoBodyState s) : NoBodyState (gzStep s a) := by
  obtain ⟨h1, h2, h3, h4, h5⟩ := h
  cases a with
  | write p => exact absurd ha (by simp [GzAction.isWrite])
  | flush => exact ⟨h1, h2, h3, h4, h5⟩
  | disable =>
    by_cases hc : s.compress = true <;>
      simp [gzStep, disableCompression, hc, NoBodyState, h1, h2, h3, h4, h5]
  | writeHeader code =>
    by_cases hcode : 400 ≤ code <;> by_cases hc : s.compress = true <;>
      simp [gzStep, writeHeaderStep, disableCompression, hcode, hc,
        NoBodyState, h1, h2, h3, h4, h5]

/-- NoBodyState is preserved along any write-free call sequence. -/
theorem noBody_foldl (acts : List GzAction) (s : GzState)
    (hacts : ∀ a ∈ acts, a.isWrite = false) (h : NoBodyState s) :
    NoBodyState (acts.foldl gzStep s) := by
  induction acts generalizing s with
  | nil => exact h
  | cons a rest ih =>
    exact ih (gzStep s a)
      (fun b hb => hacts b (List.mem_cons_of_mem a hb))
      (noBody_step s a (hacts a (List.mem_cons_self a rest)) h)

/-- An error-class WriteHeader on a body-less wrapper disables compression
for good: the resulting state is an IdentityState. -/
theorem noBody_to_identity (s : GzState) (code : Nat) (hcode : 400 ≤ code)
    (h : NoBodyState s) : IdentityState (writeHeaderStep code s) := by
  obtain ⟨h1, h2, h3, h4, h5⟩ := h
  by_cases hc : s.compress = true <;>
    simp [writeHeaderStep, disableCompression, hcode, hc,
      IdentityState, h1, h2, h3, h4, h5]

/-- Every wrapper call preserves IdentityState: once compression is
disabled it is never re-enabled, the encoding header stays deleted and all
body bytes reach the underlying writer identity-encoded. -/
theorem identity_step (s : GzState) (a : GzAction) (h : IdentityState s) :
    IdentityState (gzStep s a) := by
  obtain ⟨h1, h2, h3, h4⟩ := h
  have hwh : ∀ code, IdentityState (writeHeaderStep code s) := by
    intro code
    by_cases hcode : 400 ≤ code <;>
      simp [writeHeaderStep, disableCompression, hcode, h1,
        IdentityState, h2, h3, h4]
  cases a with
  | flush => exact ⟨h1, h2, h3, h4⟩
  | disable =>
    simp [gzStep, disableCompression, h1, IdentityState, h2, h3, h4]
  | writeHeader code => exact hwh code
  | write p =>
    have hmwh : IdentityState (maybeWriteHeader s) := by
      unfold maybeWriteHeader
      split
      · exact hwh 200
      · exact ⟨h1, h2, h3, h4⟩
    obtain ⟨g1, g2, g3, g4⟩ := hmwh
    show IdentityState (writeStep p s)
    unfold writeStep
    rw [if_pos (by simp [h1])]
    refine ⟨g1, g2, g3, ?_⟩
    show ((maybeWriteHeader s).out ++ [(false, p)]).all (fun ch => !ch.1) = true
    rw [List.all_append]
    simp [g4]

/-- IdentityState is preserved along any call sequence. -/
theorem identity_foldl (acts : List GzAction) (s : GzState)
    (h : IdentityState s) : IdentityState (acts.foldl gzStep s) := by
  induction acts generalizing s with
  | nil => exact h
  | cons a rest ih => exact ih (gzStep s a) (identity_step s a h)

/-- The middleware epilogue (Close, or DisableCompression on a panic)
preserves IdentityState. -/
theorem identity_final (s : GzState) (panics : Bool) (h : IdentityState s) :
    IdentityState (if panics then disableCompression s else closeWriter s) := by
  obtain ⟨h1, h2, h3, h4⟩ := h
  cases panics with
  | false =>
    simp [closeWriter, h2, IdentityState, h1, h3, h4]
  | true =>
    simp [disableCompression, h1, IdentityState, h2, h3, h4]

/-- Claim C3: when an error-class status (≥ 400) is written before any body
byte, compression is disabled retroactively: the Content-Encoding header
ends up unset and every body chunk written afterwards reaches the underlying
writer identity-encoded — even though the wrapper was installed (the client
advertised gzip). -/
theorem C3_error_never_gzipped (pre post : List GzAction) (code : Nat)
    (panics : Bool) (hcode : 400 ≤ code)
    (hpre : ∀ a ∈ pre, a.isWrite = false) :
    (runGzip (pre ++ GzAction.writeHeader code :: post) panics).contentEncoding
        = none ∧
    ((runGzip (pre ++ GzAction.writeHeader code :: post) panics).out.all
        fun ch => !ch.1) = true := by
  have hrun : runHandler (pre ++ GzAction.writeHeader code :: post) =
      post.foldl gzStep
        (gzStep (pre.foldl gzStep gzInit) (GzAction.writeHeader code)) := by
    unfold runHandler
    rw [List.foldl_append, List.foldl_cons]
  have h0 : NoBodyState (pre.foldl gzStep gzInit) :=
    noBody_foldl pre gzInit hpre noBody_init
  have h1 : IdentityState (gzStep (pre.foldl gzStep gzInit)
      (GzAction.writeHeader code)) :=
    noBody_to_identity _ code hcode h0
  have h2 : IdentityState (runHandler (pre ++ GzAction.writeHeader code :: post)) := by
    rw [hrun]
    exact identity_foldl post _ h1
  have h3 : IdentityState (runGzip (pre ++ GzAction.writeHeader code :: post) panics) :=
    identity_final _ panics h2
  exact ⟨h3.2.2.1, h3.2.2.2⟩

/-- C3 witness: a 404 written first, with one body chunk after it, leaves no
Content-Encoding header and delivers the chunk identity-encoded. -/
theorem C3_error_never_gzipped_witness :
    (runGzip [GzAction.writeHeader 404, GzAction.write [72]] false).contentEncoding
        = none ∧
    ((runGzip [GzAction.writeHeader 404, GzAction.write [72]] false).out.all
        fun ch => !ch.1) = true :=
  C3_error_never_gzipped [] [GzAction.write [72]] 404 false (by decide)
    (by intro a ha; simp at ha)

/-- Claim C8: a compressor is drawn from the pool only at the first body
write, never at request start: a request whose handler performs no body
write (only WriteHeader/Flush calls, as for a NotModified response) finishes
with zero pool draws, zero pool returns and no Content-Encoding header. -/
theorem C8_lazy_pool (acts : List GzAction) (panics : Bool)
    (hacts : ∀ a ∈ acts, a.isWrite = false) :
    (runGzip acts panics).gets = 0 ∧ (runGzip acts panics).puts = 0 ∧
    (runGzip acts panics).contentEncoding = none := by
  have h0 : NoBodyState (runHandler acts) := noBody_foldl acts gzInit hacts noBody_init
  obtain ⟨h1, h2, h3, h4, h5⟩ := h0
  unfold runGzip
  cases panics with
  | false =>
    simp [closeWriter, h3, h1, h2, h4]
  | true =>
    by_cases hc : (runHandler acts).compress = true <;>
      simp [disableCompression, hc, h3, h1, h2, h4]

/-- C8 witness: a NotModified response (only `WriteHeader 304`) never touches
the pool and sets no Content-Encoding header. -/
theorem C8_lazy_pool_witness :
    (runGzip [GzAction.writeHeader 304] false).gets = 0 ∧
    (runGzip [GzAction.writeHeader 304] false).puts = 0 ∧
    (runGzip [GzAction.writeHeader 304] false).contentEncoding = none :=
  C8_lazy_pool [GzAction.writeHeader 304] false
    (by
      intro a ha
      rcases List.mem_singleton.mp ha with rfl
      rfl)

/-- packPages produces time-independent fields unchanged when only the stat
modification time function differs. -/
theorem packPages_agrees (inp : PackInput) (mt2 : String → Nat)
    (pages : List String) :
    dropTimes (packPages inp pages) =
    dropTimes (packPages { inp with modTimeOf := mt2 } pages) := by
  unfold packPages
  have aux : ∀ (ps : List String) (acc1 acc2 : List (String × ManifestEntry)),
      dropTimes acc1 = dropTimes acc2 →
      dropTimes (ps.foldl (fun acc page =>
        match inp.pageFS page with
        | none => acc
        | some data => addManifestEntry inp.sha acc ("pages/" ++ page) data
            (inp.modTimeOf ("pages/" ++ page))) acc1) =
      dropTimes (ps.foldl (fun acc page =>
        match inp.pageFS page with
        | none => acc
        | some data => addManifestEntry inp.sha acc ("pages/" ++ page) data
            (mt2 ("pages/" ++ page))) acc2) := by
    intro ps
    induction ps with
    | nil => intro acc1 acc2 h; exact h
    | cons p rest ih =>
      intro acc1 acc2 h
      simp only [List.foldl_cons]
      cases hp : inp.pageFS p with
      | none => exact ih _ _ h
      | some data =>
        exact ih _ _ (by
          simp only [dropTimes, addManifestEntry, List.map_cons]
          rw [show dropTime (mkManifestEntry inp.sha ("pages/" ++ p) data
              (inp.modTimeOf ("pages/" ++ p))) =
            dropTime (mkManifestEntry inp.sha ("pages/" ++ p) data
              (mt2 ("pages/" ++ p))) from rfl]
          exact congrArg _ h)
  exact aux pages [] [] rfl

/-- packAssets agrees modulo modification times when only the stat time
function differs. -/
theorem packAssets_agrees (inp : PackInput) (mt2 : String → Nat)
    (assets : List String) :
    ∀ acc1 acc2, dropTimes acc1 = dropTimes acc2 →
      manifestAgrees (packAssets inp assets acc1)
        (packAssets { inp with modTimeOf := mt2 } assets acc2) := by
  induction assets with
  | nil => intro acc1 acc2 h; exact h
  | cons a rest ih =>
    intro acc1 acc2 h
    show manifestAgrees
      (match inp.assetFS a with
        | none => .error ("stat asset " ++ a)
        | some data =>
          packAssets inp rest (addManifestEntry inp.sha acc1 a data (inp.modTimeOf a)))
      (match inp.assetFS a with
        | none => .error ("stat asset " ++ a)
        | some data =>
          packAssets { inp with modTimeOf := mt2 } rest
            (addManifestEntry inp.sha acc2 a data (mt2 a)))
    cases hp : inp.assetFS a with
    | none => rfl
    | some data =>
      exact ih _ _ (by
        simp only [dropTimes, addManifestEntry, List.map_cons]
        rw [show dropTime (mkManifestEntry inp.sha a data (inp.modTimeOf a)) =
          dropTime (mkManifestEntry inp.sha a data (mt2 a)) from rfl]
        exact congrArg _ h)

/-- Claim C4: the strong validator is a pure function of the byte sequence —
hashing the same bytes twice yields the identical quoted hex validator — and
a manifest entry's hash, size, MIME and key never depend on the file's
modification time; consequently two packer runs over the same tree that
differ only in the observed stat times produce manifests that are
byte-identical except for the `mod_time` fields. -/
theorem C4_validator_pure_and_idempotent (sha : List Nat → List Nat)
    (inp : PackInput) (mt2 : String → Nat) (routes : List Route)
    (rel : String) (data : List Nat) (t1 t2 : Nat) :
    strongETag sha data = strongETag sha data ∧
    dropTime (mkManifestEntry sha rel data t1) =
      dropTime (mkManifestEntry sha rel data t2) ∧
    manifestAgrees (runPacker inp routes)
      (runPacker { inp with modTimeOf := mt2 } routes) := by
  refine ⟨rfl, rfl, ?_⟩
  unfold runPacker
  have hval : validateRoutes
      (fun name => (({ inp with modTimeOf := mt2 } : PackInput).pageFS name).isSome)
      routes = validateRoutes (fun name => (inp.pageFS name).isSome) routes := rfl
  rw [hval]
  cases hv : validateRoutes (fun name => (inp.pageFS name).isSome) routes with
  | error e => rfl
  | ok vroutes =>
    show manifestAgrees
      (packAssets inp (sortStrings (discoveredAssets inp (uniquePages vroutes)))
        (packPages inp (uniquePages vroutes)))
      (packAssets { inp with modTimeOf := mt2 }
        (sortStrings (discoveredAssets { inp with modTimeOf := mt2 }
          (uniquePages vroutes)))
        (packPages { inp with modTimeOf := mt2 } (uniquePages vroutes)))
    have hassets : sortStrings
        (discoveredAssets { inp with modTimeOf := mt2 } (uniquePages vroutes)) =
        sortStrings (discoveredAssets inp (uniquePages vroutes)) := rfl
    rw [hassets]
    exact packAssets_agrees inp mt2 _ _ _ (packPages_agrees inp mt2 _)

/-- dropDotDots is the identity when no `../` prefix is present. -/
theorem dropDotDots_eq_self (l : List Char)
    (h : (['.', '.', '/'] : List Char).isPrefixOf l = false) :
    dropDotDots l = l := by
  rw [dropDotDots.eq_def]
  split
  · simp [List.isPrefixOf] at h
  · rfl

/-- stripDotSegs is the identity when no dot-segment prefix is present. -/
theorem stripDotSegs_eq_self (l : List Char)
    (h1 : (['.', '/'] : List Char).isPrefixOf l = false)
    (h2 : (['.', '.', '/'] : List Char).isPrefixOf l = false) :
    stripDotSegs l = l := by
  rw [stripDotSegs.eq_def]
  split
  · simp [List.isPrefixOf] at h1
  · simp [List.isPrefixOf] at h2
  · rfl

/-- Once the `../`-stripped remainder lies under `static/`, the greedy
dot-segment stripper agrees with the code's stripper. -/
theorem stripDotSegs_static : ∀ (n : Nat) (l : List Char), l.length ≤ n →
    ("static/".data.isPrefixOf (dropDotDots l)) = true →
    stripDotSegs l = dropDotDots l := by
  intro n
  induction n with
  | zero =>
    intro l hl _
    have : l = [] := List.length_eq_zero.mp (Nat.le_zero.mp hl)
    subst this
    rfl
  | succ n ih =>
    intro l hl h
    by_cases h2 : (['.', '/'] : List Char).isPrefixOf l = true
    · obtain ⟨t, ht⟩ := List.isPrefixOf_iff_prefix.mp h2
      subst ht
      simp only [List.cons_append, List.nil_append] at h
      simp [List.isPrefixOf] at h
    · by_cases h3 : (['.', '.', '/'] : List Char).isPrefixOf l = true
      · obtain ⟨t, ht⟩ := List.isPrefixOf_iff_prefix.mp h3
        subst ht
        simp only [List.cons_append, List.nil_append] at h hl ⊢
        rw [show dropDotDots ('.' :: '.' :: '/' :: t) = dropDotDots t from rfl] at h ⊢
        rw [show stripDotSegs ('.' :: '.' :: '/' :: t) = stripDotSegs t from rfl]
        refine ih t ?_ h
        simp at hl
        omega
      · rw [stripDotSegs_eq_self l (Bool.eq_false_iff.mpr h2) (Bool.eq_false_iff.mpr h3)]
        rw [dropDotDots_eq_self l (Bool.eq_false_iff.mpr h3)] at h ⊢

/-- Claim C5: the packer accepts a URL candidate as a local asset only if it
is not an absolute external URL (http, https, protocol-relative), not a
`data:`/`mailto:` URI, not a bare fragment, and — after stripping any
query/fragment suffix, the root slash and the leading dot segments — the
remainder resolves under the static-assets root; furthermore the accepted
normalized path always lies under `static/`. -/
theorem C5_accept_only_local (path s : String)
    (h : normalizeAssetPath path = some s) :
    specIsLocalAsset path = true ∧ goStartsWith s "static/" = true := by
  unfold normalizeAssetPath at h
  unfold specIsLocalAsset
  by_cases hempty : goTrimSpace path = ""
  · rw [if_pos hempty] at h
    exact absurd h (by simp)
  rw [if_neg hempty] at h
  by_cases hext : (goStartsWith (goToLower (goTrimSpace path)) "http://" ||
      goStartsWith (goToLower (goTrimSpace path)) "https://" ||
      goStartsWith (goToLower (goTrimSpace path)) "//") = true
  · rw [if_pos hext] at h
    exact absurd h (by simp)
  rw [if_neg hext] at h
  by_cases hdm : (goStartsWith (goToLower (goTrimSpace path)) "data:" ||
      goStartsWith (goToLower (goTrimSpace path)) "mailto:") = true
  · rw [if_pos hdm] at h
    exact absurd h (by simp)
  rw [if_neg hdm] at h
  by_cases hfrag : goStartsWith (goTrimSpace path) "#" = true
  · rw [if_pos hfrag] at h
    exact absurd h (by simp)
  rw [if_neg hfrag] at h
  by_cases hstat : goStartsWith
      (goToSlash (String.mk (dropDotDots
        (goTrimLeading (goTrimLeading (dropQueryFragment (goTrimSpace path)) "/")
          "./").data))) "static/" = true
  swap
  · rw [if_neg hstat] at h
    exact absurd h (by simp)
  rw [if_pos hstat] at h
  have hs : s = goToSlash (String.mk (dropDotDots
      (goTrimLeading (goTrimLeading (dropQueryFragment (goTrimSpace path)) "/")
        "./").data)) := by
    exact (Option.some.injEq _ _).mp h.symm
  refine ⟨?_, by rw [hs]; exact hstat⟩
  simp only [Bool.not_eq_true] at hext hdm hfrag
  simp only [hext, hdm, hfrag, Bool.not_false, Bool.true_and]
  -- remaining: the spec-side stripped remainder lies under static/
  have hq : ("static/".data.isPrefixOf (dropDotDots
      (goTrimLeading (goTrimLeading (dropQueryFragment (goTrimSpace path)) "/")
        "./").data)) = true := hstat
  show ("static/".data.isPrefixOf (stripDotSegs
    (goTrimLeading (dropQueryFragment (goTrimSpace path)) "/").data)) = true
  set q := goTrimLeading (dropQueryFragment (goTrimSpace path)) "/" with hqdef
  by_cases hdot : (['.', '/'] : List Char).isPrefixOf q.data = true
  · have htrim : (goTrimLeading q "./").data = q.data.drop 2 := by
      unfold goTrimLeading
      rw [if_pos (show goStartsWith q "./" = true from hdot)]
      rfl
    rw [htrim] at hq
    obtain ⟨t, ht⟩ := List.isPrefixOf_iff_prefix.mp hdot
    have hdrop : q.data.drop 2 = t := by
      rw [← ht]
      rfl
    have hqt : q.data = '.' :: '/' :: t := by
      rw [← ht]
      rfl
    rw [hdrop] at hq
    rw [hqt]
    rw [show stripDotSegs ('.' :: '/' :: t) = stripDotSegs t from rfl]
    rw [stripDotSegs_static t.length t (le_refl _) hq]
    exact hq
  · have htrim : goTrimLeading q "./" = q := by
      unfold goTrimLeading
      rw [if_neg (show ¬ (goStartsWith q "./" = true) from fun hcc => hdot hcc)]
    rw [htrim] at hq
    rw [stripDotSegs_static q.data.length q.data (le_refl _) hq]
    exact hq

/-- C5 witness: the root-relative stylesheet reference is accepted, satisfies
the spec's conditions and resolves under `static/`. -/
theorem C5_accept_only_local_witness :
    specIsLocalAsset "/static/app.css" = true ∧
    goStartsWith "static/app.css" "static/" = true :=
  C5_accept_only_local "/static/app.css" "static/app.css" (by rfl)

set_option maxRecDepth 4000 in
/-- Claim C6: on the example markup with one stylesheet link, one image with
a mixed local/remote srcset and one script, asset discovery returns exactly
the sorted set of the three local assets; the remote srcset candidate is
excluded. -/
theorem C6_discovery_example :
    collectAssets ("<link href=\"/static/app.css\"><img src=\"/static/img/logo.png\" srcset=\"/static/img/logo.png 1x, https://cdn.example.com/logo@2x.png 2x\"><script src=\"/static/app.js\">") =
    ["static/app.css", "static/app.js", "static/img/logo.png"] := by
  rfl

/-- validateRoutesAux succeeds only when every listed route's page exists. -/
theorem validateRoutesAux_pages (fsExists : String → Bool) :
    ∀ (routes : List Route) (seen : List String) (vr : List Route),
      validateRoutesAux fsExists routes seen = .ok vr →
      ∀ rt ∈ routes, fsExists (goToSlash rt.page) = true := by
  intro routes
  induction routes with
  | nil =>
    intro seen vr h rt hrt
    simp at hrt
  | cons r rest ih =>
    intro seen vr h rt hrt
    unfold validateRoutesAux at h
    by_cases h1 : r.path = ""
    · rw [if_pos h1] at h
      simp at h
    rw [if_neg h1] at h
    by_cases h2 : (seen.contains (cleanPath r.path)) = true
    · rw [if_pos h2] at h
      simp at h
    rw [if_neg h2] at h
    by_cases h3 : r.page = ""
    · rw [if_pos h3] at h
      simp at h
    rw [if_neg h3] at h
    by_cases h4 : goContains (goToSlash r.page) ".." = true
    · rw [if_pos h4] at h
      simp at h
    rw [if_neg h4] at h
    by_cases h5 : fsExists (goToSlash r.page) = true
    · rw [if_neg (show ¬ (¬ fsExists (goToSlash r.page) = true) from
        fun hc => hc h5)] at h
      rcases List.mem_cons.mp hrt with hrfl | hmem
      · rw [hrfl]
        exact h5
      · cases hrec : validateRoutesAux fsExists rest (cleanPath r.path :: seen) with
        | error e =>
          rw [hrec] at h
          simp at h
        | ok rs => exact ih _ rs hrec rt hmem
    · rw [if_pos (show (¬ fsExists (goToSlash r.page) = true) from h5)] at h
      simp at h

/-- packAssets succeeds when every discovered asset exists on disk. -/
theorem packAssets_all_present (inp : PackInput) :
    ∀ (assets : List String) (acc : List (String × ManifestEntry)),
      (∀ a ∈ assets, (inp.assetFS a).isSome = true) →
      exceptIsOk (packAssets inp assets acc) = true := by
  intro assets
  induction assets with
  | nil => intro acc _; rfl
  | cons a rest ih =>
    intro acc hall
    show exceptIsOk (match inp.assetFS a with
      | none => .error ("stat asset " ++ a)
      | some data =>
        packAssets inp rest (addManifestEntry inp.sha acc a data (inp.modTimeOf a)))
      = true
    cases hp : inp.assetFS a with
    | none =>
      have := hall a (List.mem_cons_self a rest)
      rw [hp] at this
      simp at this
    | some data =>
      exact ih _ (fun b hb => hall b (List.mem_cons_of_mem a hb))

/-- packAssets fails when some discovered asset is missing on disk. -/
theorem packAssets_missing (inp : PackInput) :
    ∀ (assets : List String) (acc : List (String × ManifestEntry)),
      (∃ a ∈ assets, inp.assetFS a = none) →
      exceptIsOk (packAssets inp assets acc) = false := by
  intro assets
  induction assets with
  | nil =>
    intro acc hex
    simp at hex
  | cons a rest ih =>
    intro acc hex
    show exceptIsOk (match inp.assetFS a with
      | none => .error ("stat asset " ++ a)
      | some data =>
        packAssets inp rest (addManifestEntry inp.sha acc a data (inp.modTimeOf a)))
      = false
    cases hp : inp.assetFS a with
    | none => rfl
    | some data =>
      obtain ⟨b, hb, hbn⟩ := hex
      rcases List.mem_cons.mp hb with hrfl | hmem
      · rw [hrfl] at hbn
        rw [hbn] at hp
        cases hp
      · exact ih _ ⟨b, hmem, hbn⟩

/-- Claim C7: during a packer run, a page referenced by a configured route
but missing on disk aborts the run; the two reserved error pages (404.html,
500.html) missing on disk are skipped without aborting — with every route
page present and every discovered asset present, the run succeeds; and any
discovered static asset missing on disk aborts the run. -/
theorem C7_missing_file_policy (inp : PackInput) (routes : List Route) :
    ((∃ rt ∈ routes, inp.pageFS (goToSlash rt.page) = none) →
      exceptIsOk (runPacker inp routes) = false) ∧
    (∀ vr, validateRoutes (fun n => (inp.pageFS n).isSome) routes = .ok vr →
      inp.pageFS "404.html" = none → inp.pageFS "500.html" = none →
      (∀ a ∈ sortStrings (discoveredAssets inp (uniquePages vr)),
        (inp.assetFS a).isSome = true) →
      exceptIsOk (runPacker inp routes) = true) ∧
    (∀ vr, validateRoutes (fun n => (inp.pageFS n).isSome) routes = .ok vr →
      (∃ a ∈ sortStrings (discoveredAssets inp (uniquePages vr)),
        inp.assetFS a = none) →
      exceptIsOk (runPacker inp routes) = false) := by
  refine ⟨?_, ?_, ?_⟩
  · rintro ⟨rt, hmem, hnone⟩
    unfold runPacker
    cases hval : validateRoutes (fun n => (inp.pageFS n).isSome) routes with
    | error e => rfl
    | ok vr =>
      unfold validateRoutes at hval
      by_cases hre : routes.isEmpty = true
      · rw [if_pos hre] at hval
        simp at hval
      · rw [if_neg hre] at hval
        have := validateRoutesAux_pages (fun n => (inp.pageFS n).isSome)
          routes [] vr hval rt hmem
        simp [hnone] at this
  · intro vr hval _ _ hall
    unfold runPacker
    rw [hval]
    exact packAssets_all_present inp _ _ hall
  · intro vr hval hex
    unfold runPacker
    rw [hval]
    exact packAssets_missing inp _ _ hex

/-- C7 witness: with the single route's page present and its one referenced
asset present the run succeeds even though both reserved error pages are
missing; removing every page from disk makes the same run abort. -/
theorem C7_missing_file_policy_witness :
    exceptIsOk (runPacker inpW7 routesW7) = true ∧
    exceptIsOk (runPacker inpW7noPage routesW7) = false ∧
    exceptIsOk (runPacker inpW7noAsset routesW7) = false :=
  ⟨(C7_missing_file_policy inpW7 routesW7).2.1
      [{ path := "/", page := "home.html", title := "Home" }] (by rfl)
      (by rfl) (by rfl)
      (by
        intro a ha
        rcases List.mem_singleton.mp ha with rfl
        rfl),
    (C7_missing_file_policy inpW7noPage routesW7).1
      ⟨{ path := "/", page := "home.html", title := "Home" },
        List.mem_singleton.mpr rfl, rfl⟩,
    (C7_missing_file_policy inpW7noAsset routesW7).2.2
      [{ path := "/", page := "home.html", title := "Home" }] (by rfl)
      ⟨"static/a.css", by decide, rfl⟩⟩

/-- lookupAssoc only returns stored pairs. -/
theorem lookupAssoc_mem {α : Type} :
    ∀ (st : List (String × α)) (p : String) (a : α),
      lookupAssoc st p = some a → (p, a) ∈ st := by
  intro st
  induction st with
  | nil =>
    intro p a h
    simp [lookupAssoc] at h
  | cons kv rest ih =>
    intro p a h
    unfold lookupAssoc at h
    by_cases hk : kv.1 = p
    · rw [if_pos hk] at h
      have hv : kv.2 = a := by
        cases h
        rfl
      have hpa : (p, a) = kv := by
        rw [← hk, ← hv]
      rw [hpa]
      exact List.mem_cons_self kv rest
    · rw [if_neg hk] at h
      exact List.mem_cons_of_mem kv (ih p a h)

/-- cacheGet leaves the published-records invariant intact: every record in
the map after a call is the fully built pure function of the bytes. -/
theorem cacheGet_preserves_inv (std : StdLib) (c : CacheModel)
    (st : CacheState) (q : String)
    (h : ∀ p a, (p, a) ∈ st → computeAsset std c p = some a) :
    ∀ p a, (p, a) ∈ (match cacheGet std c st q with
      | .ok (_, st1) => st1
      | .error _ => st) → computeAsset std c p = some a := by
  unfold cacheGet
  by_cases hq : q = ""
  · rw [if_pos hq]
    exact h
  rw [if_neg hq]
  cases hl : lookupAssoc st q with
  | some a0 => exact h
  | none =>
    cases hc : computeAsset std c q with
    | none => exact h
    | some a0 =>
      intro p a hmem
      rcases List.mem_cons.mp hmem with heq | hmem2
      · have hp : p = q := congrArg Prod.fst heq
        have ha : a = a0 := congrArg Prod.snd heq
        rw [hp, ha]
        exact hc
      · exact h p a hmem2

/-- Every reachable cache state satisfies the published-records invariant:
a record is stored only fully formed, equal to the pure function of the
underlying bytes. -/
theorem reachable_inv (std : StdLib) (c : CacheModel) (st : CacheState)
    (h : ReachableCache std c st) :
    ∀ p a, (p, a) ∈ st → computeAsset std c p = some a := by
  obtain ⟨paths, rfl⟩ := h
  induction paths using List.reverseRecOn with
  | nil =>
    intro p a hmem
    simp [runGets] at hmem
  | append_singleton ps q ih =>
    unfold runGets
    rw [List.foldl_append, List.foldl_cons, List.foldl_nil]
    exact cacheGet_preserves_inv std c (runGets std c ps) q ih

/-- A successful Get returns exactly the pure record of the path. -/
theorem cacheGet_ok_computes (std : StdLib) (c : CacheModel) (st : CacheState)
    (p : String) (r : CachedAsset) (st' : CacheState)
    (hinv : ∀ q a, (q, a) ∈ st → computeAsset std c q = some a)
    (h : cacheGet std c st p = .ok (r, st')) :
    computeAsset std c p = some r := by
  unfold cacheGet at h
  by_cases hp : p = ""
  · rw [if_pos hp] at h
    cases h
  rw [if_neg hp] at h
  cases hl : lookupAssoc st p with
  | some a0 =>
    rw [hl] at h
    have hr : a0 = r := by
      cases h
      rfl
    rw [← hr]
    exact hinv p a0 (lookupAssoc_mem st p a0 hl)
  | none =>
    rw [hl] at h
    cases hc : computeAsset std c p with
    | none =>
      rw [hc] at h
      cases h
    | some a0 =>
      rw [hc] at h
      have hr : a0 = r := congrArg Prod.fst (Except.ok.inj h)
      rw [← hr]

/-- Claim C9: the content cache's Get is deterministic over the underlying
bytes — two successful evaluations of Get for the same path, from any two
cache states reachable by prior Get calls, return the same record (same
ETag, body, MIME and size), namely the pure record computed from the file
bytes — and every record stored in a reachable cache state is that fully
built pure record, so no caller observes a partially built record. -/
theorem C9_get_deterministic (std : StdLib) (c : CacheModel)
    (st1 st2 : CacheState) (p : String) (r1 r2 : CachedAsset)
    (st1' st2' : CacheState)
    (h1 : ReachableCache std c st1) (h2 : ReachableCache std c st2)
    (g1 : cacheGet std c st1 p = .ok (r1, st1'))
    (g2 : cacheGet std c st2 p = .ok (r2, st2')) :
    r1 = r2 ∧ computeAsset std c p = some r1 ∧
    (∀ q a, (q, a) ∈ st1 → computeAsset std c q = some a) := by
  have hinv1 := reachable_inv std c st1 h1
  have hinv2 := reachable_inv std c st2 h2
  have hc1 := cacheGet_ok_computes std c st1 p r1 st1' hinv1 g1
  have hc2 := cacheGet_ok_computes std c st2 p r2 st2' hinv2 g2
  refine ⟨?_, hc1, hinv1⟩
  have := hc1.symm.trans hc2
  exact Option.some.injEq r1 r2 ▸ this

/-- C9 witness: a cold Get and a Get against the already populated cache
return the identical fully built record. -/
theorem C9_get_deterministic_witness :
    recW9 = recW9 ∧ computeAsset stdW9 cacheW9 "a" = some recW9 :=
  ⟨(C9_get_deterministic stdW9 cacheW9 [] [("a", recW9)] "a" recW9 recW9
      [("a", recW9)] [("a", recW9)] ⟨[], rfl⟩ ⟨["a"], rfl⟩ rfl rfl).1,
    (C9_get_deterministic stdW9 cacheW9 [] [("a", recW9)] "a" recW9 recW9
      [("a", recW9)] [("a", recW9)] ⟨[], rfl⟩ ⟨["a"], rfl⟩ rfl rfl).2.1⟩

/-- quoted_shape: a string wrapped in double quotes is non-empty and begins
and ends with a double quote. -/
theorem quoted_shape (x : String) :
    ("\"" ++ x ++ "\"") ≠ "" ∧
    ("\"" ++ x ++ "\"").data.head? = some '"' ∧
    ("\"" ++ x ++ "\"").data.getLast? = some '"' := by
  have hdata : ("\"" ++ x ++ "\"").data = '"' :: (x.data ++ ['"']) := by
    rw [String.data_append, String.data_append]
    rfl
  refine ⟨?_, ?_, ?_⟩
  · intro hc
    have hd := congrArg String.data hc
    rw [hdata] at hd
    simp at hd
  · rw [hdata]
    rfl
  · rw [hdata]
    rw [show ('"' :: (x.data ++ ['"'])) = ('"' :: x.data) ++ ['"'] by simp]
    exact List.getLast?_concat _

/-- startsWith_quote_head: a string with quote prefix has a quote head. -/
theorem startsWith_quote_head (s : String) (h : goStartsWith s "\"" = true) :
    s.data.head? = some '"' := by
  unfold goStartsWith at h
  obtain ⟨t, ht⟩ := List.isPrefixOf_iff_prefix.mp h
  rw [← ht]
  rfl

/-- endsWith_quote_last: a string with quote suffix has a quote last
character. -/
theorem endsWith_quote_last (s : String) (h : goEndsWith s "\"" = true) :
    s.data.getLast? = some '"' := by
  unfold goEndsWith at h
  obtain ⟨t, ht⟩ := List.isSuffixOf_iff_suffix.mp h
  rw [← ht]
  exact List.getLast?_concat _

/-- head_quote_ne_empty: a string whose head is a quote is non-empty. -/
theorem head_quote_ne_empty (s : String) (h : s.data.head? = some '"') :
    s ≠ "" := by
  intro hc
  rw [hc] at h
  cases h

/-- lookupMeta_etag enumerates the shapes of the manifest-resolved ETag:
empty, quoted by the cache, or taken verbatim (already starting with a
quote). -/
theorem lookupMeta_etag (c : CacheModel) (p : String) :
    (lookupMeta c p).etag = "" ∨
    (∃ entry, lookupAssoc (manifestFiles c) p = some entry ∧
      entry.sha256 ≠ "" ∧
      ((lookupMeta c p).etag = "\"" ++ entry.sha256 ++ "\"" ∨
        (goStartsWith entry.sha256 "\"" = true ∧
          (lookupMeta c p).etag = entry.sha256))) := by
  unfold lookupMeta
  cases hl : lookupAssoc (manifestFiles c) p with
  | none => exact Or.inl rfl
  | some entry =>
    by_cases hsha : entry.sha256 = ""
    · refine Or.inl ?_
      show (if entry.sha256 ≠ "" ∧ ¬ goStartsWith entry.sha256 "\"" = true then
        "\"" ++ entry.sha256 ++ "\"" else entry.sha256) = ""
      rw [if_neg (show ¬ (entry.sha256 ≠ "" ∧
          ¬ goStartsWith entry.sha256 "\"" = true) from fun hc => hc.1 hsha)]
      exact hsha
    · by_cases hq : goStartsWith entry.sha256 "\"" = true
      · refine Or.inr ⟨entry, rfl, hsha, Or.inr ⟨hq, ?_⟩⟩
        show (if entry.sha256 ≠ "" ∧ ¬ goStartsWith entry.sha256 "\"" = true then
          "\"" ++ entry.sha256 ++ "\"" else entry.sha256) = entry.sha256
        rw [if_neg (show ¬ (entry.sha256 ≠ "" ∧
            ¬ goStartsWith entry.sha256 "\"" = true) from fun hc => hc.2 hq)]
      · refine Or.inr ⟨entry, rfl, hsha, Or.inl ?_⟩
        show (if entry.sha256 ≠ "" ∧ ¬ goStartsWith entry.sha256 "\"" = true then
          "\"" ++ entry.sha256 ++ "\"" else entry.sha256) = "\"" ++ entry.sha256 ++ "\""
        rw [if_pos ⟨hsha, hq⟩]

/-- etag_ok: the resolved ETag of any record is unconditionally non-empty
with a leading double quote; it also ends with a double quote whenever every
manifest hash that starts with a quote also ends with one. -/
theorem etag_ok (std : StdLib) (c : CacheModel) (p : String) (body : List Nat) :
    resolveETag std (lookupMeta c p).etag body ≠ "" ∧
    (resolveETag std (lookupMeta c p).etag body).data.head? = some '"' ∧
    ((∀ pr ∈ manifestFiles c, goStartsWith pr.2.sha256 "\"" = true →
        goEndsWith pr.2.sha256 "\"" = true) →
      (resolveETag std (lookupMeta c p).etag body).data.getLast? = some '"') := by
  unfold resolveETag
  by_cases hm : (lookupMeta c p).etag = ""
  · rw [if_pos hm]
    obtain ⟨q1, q2, q3⟩ := quoted_shape (hexEncode (std.sha body))
    exact ⟨q1, q2, fun _ => q3⟩
  · rw [if_neg hm]
    rcases lookupMeta_etag c p with he | ⟨entry, hmem, hsha, hshape⟩
    · exact absurd he hm
    rcases hshape with he | ⟨hq, he⟩
    · rw [he]
      obtain ⟨q1, q2, q3⟩ := quoted_shape entry.sha256
      exact ⟨q1, q2, fun _ => q3⟩
    · rw [he]
      exact ⟨hsha, startsWith_quote_head entry.sha256 hq,
        fun hwf => endsWith_quote_last entry.sha256
          (hwf (p, entry) (lookupAssoc_mem _ p entry hmem) hq)⟩

/-- resolveLastModified_ne: the resolved Last-Modified is non-zero whenever
the cache's default time is non-zero. -/
theorem resolveLastModified_ne (c : CacheModel) (p : String) (m : Nat)
    (hd : c.defaultTime ≠ 0) : resolveLastModified c p m ≠ 0 := by
  unfold resolveLastModified
  split_ifs with h1
  · exact hd
  · exact h1

/-- fallbackMIME_ne_empty: the built-in extension table never yields the
empty string. -/
theorem fallbackMIME_ne_empty (ext : String) : fallbackMIME ext ≠ "" := by
  unfold fallbackMIME
  split_ifs <;> simp

/-- resolveMIMEBase_ne: the primary MIME chain never yields the empty
string. -/
theorem resolveMIMEBase_ne (std : StdLib) (path : String) (m : String)
    (body : List Nat) : resolveMIMEBase std path m body ≠ "" := by
  unfold resolveMIMEBase
  split_ifs with h1 h2 h3
  · exact h2
  · exact h3
  · exact absurd (not_not.mp h3) (fallbackMIME_ne_empty _)
  · exact h1

/-- resolveMIME_ne: the resolved MIME type is never empty. -/
theorem resolveMIME_ne (std : StdLib) (path : String) (m : String)
    (body : List Nat) : resolveMIME std path m body ≠ "" := by
  unfold resolveMIME
  split_ifs with h1 h2
  · exact h2.1
  · exact resolveMIMEBase_ne std path m body
  · exact resolveMIMEBase_ne std path m body

/-- Amended claim C10: for every path on which the cache's Get succeeds from
a reachable state, the record has a non-empty ETag whose first character is
a double quote and — provided every manifest SHA-256 value that starts with
a double quote also ends with one (true of all packer-produced hex digests)
— whose last character is a double quote; a non-zero Last-Modified whenever
the cache's default time is non-zero; and a non-empty MIME type, even
without a manifest entry. -/
theorem C10_resolved_record_fields (std : StdLib) (c : CacheModel)
    (st : CacheState) (p : String) (r : CachedAsset) (st' : CacheState)
    (hr : ReachableCache std c st)
    (hg : cacheGet std c st p = .ok (r, st')) :
    r.etag ≠ "" ∧ r.etag.data.head? = some '"' ∧
    ((∀ pr ∈ manifestFiles c, goStartsWith pr.2.sha256 "\"" = true →
        goEndsWith pr.2.sha256 "\"" = true) →
      r.etag.data.getLast? = some '"') ∧
    (c.defaultTime ≠ 0 → r.lastModified ≠ 0) ∧ r.mime ≠ "" := by
  have hc := cacheGet_ok_computes std c st p r st' (reachable_inv std c st hr) hg
  unfold computeAsset at hc
  cases hf : c.fs p with
  | none =>
    rw [hf] at hc
    cases hc
  | some body =>
    rw [hf] at hc
    have hrec : r =
        { path := p
          body := body
          etag := resolveETag std (lookupMeta c p).etag body
          lastModified := resolveLastModified c p (lookupMeta c p).lastModified
          mime := resolveMIME std p (lookupMeta c p).mime body
          size := body.length } := (Option.some.inj hc).symm
    rw [hrec]
    obtain ⟨e1, e2, e3⟩ := etag_ok std c p body
    exact ⟨e1, e2, e3, fun hd => resolveLastModified_ne c p _ hd,
      resolveMIME_ne std p _ body⟩

/-- C10 counterexample to the claim as stated: over a manifest whose stored
hash is the malformed string consisting of a double quote followed by `x`,
Get succeeds and returns a record whose ETag's last character is not a
double quote. -/
theorem C10_quote_suffix_counterexample :
    cacheGet stdW9 cacheX [] "a" = .ok (recX, [("a", recX)]) ∧
    recX.etag = "\"x" ∧ recX.etag.data.getLast? ≠ some '"' := by
  refine ⟨rfl, rfl, by decide⟩

/-- C10 witness: a manifest-less cache (trivially well-formed) yields a
record with a quote-delimited non-empty ETag, non-zero Last-Modified and
non-empty MIME. -/
theorem C10_resolved_record_fields_witness :
    recW9.etag ≠ "" ∧ recW9.etag.data.head? = some '"' ∧
    ((∀ pr ∈ manifestFiles cacheW9, goStartsWith pr.2.sha256 "\"" = true →
        goEndsWith pr.2.sha256 "\"" = true) →
      recW9.etag.data.getLast? = some '"') ∧
    (cacheW9.defaultTime ≠ 0 → recW9.lastModified ≠ 0) ∧ recW9.mime ≠ "" :=
  C10_resolved_record_fields stdW9 cacheW9 [] "a" recW9 [("a", recW9)]
    ⟨[], rfl⟩ rfl

end LandingGo
